import Mathlib

/-!
Shallow embedding of the file-backed document store, key sanitizer and bounded
context queue of the discord-ollama repository, together with proofs about the
properties its specification states.

Strings from the TypeScript side are modelled as `List Char` (one entry per
UTF-16 code unit; `String.prototype.length` and `slice` count code units, which
`List.length` and `List.take` mirror).  Fallible operations return `Except`;
JavaScript `undefined | T` results become `Option`.
-/

set_option autoImplicit false

/-! ## Bounded context queue (src/queues/queue.ts) -/

/-- The `Queue<T>` class.  `capacity` is a public mutable `number` field in the
source, so it is modelled as an unconstrained `Int`; only the constructor
(`Queue.make`) validates it. -/
structure Queue (α : Type) where
  storage : List α
  capacity : Int
  deriving DecidableEq

/-- The constructor: `constructor(public capacity: number = 5)` throws when
`capacity < 1`. -/
def Queue.make (α : Type) (capacity : Int) : Except String (Queue α) :=
  if capacity < 1 then .error "Queue capacity must be at least 1"
  else .ok { storage := [], capacity := capacity }

/-- `size()` returns `this.storage.length`. -/
def Queue.size {α : Type} (q : Queue α) : Nat := q.storage.length

/-- The eviction loop of `enqueue`: `while (this.size() >= this.capacity)
this.dequeue()`.  `dequeue` is `storage.shift()`, which removes the head and
leaves an empty array unchanged.  The loop is modelled with explicit fuel;
`none` models non-termination (the loop condition still holding when the fuel,
chosen as one more than the iteration bound, runs out). -/
def evictLoop {α : Type} (capacity : Int) : Nat → List α → Option (List α)
  | 0, s => if capacity ≤ (s.length : Int) then none else some s
  | fuel + 1, s =>
    if capacity ≤ (s.length : Int) then evictLoop capacity fuel s.tail else some s

/-- `dequeue()` — `return this.storage.shift()`. -/
def Queue.dequeue {α : Type} (q : Queue α) : Queue α × Option α :=
  ({ q with storage := q.storage.tail }, q.storage.head?)

/-- `enqueue(item)` — run the eviction loop, then `this.storage.push(item)`.
The fuel `storage.length + 1` covers every terminating run of the loop (each
iteration on a non-empty array shortens it by one). -/
def Queue.enqueue {α : Type} (q : Queue α) (x : α) : Option (Queue α) :=
  match evictLoop q.capacity (q.storage.length + 1) q.storage with
  | some s => some { q with storage := s ++ [x] }
  | none => none

/-- `removeLast()` — `return this.storage.pop()`. -/
def Queue.removeLast {α : Type} (q : Queue α) : Queue α × Option α :=
  ({ q with storage := q.storage.dropLast }, q.storage.getLast?)

/-- `getItems()` — returns a copy of the backing array. -/
def Queue.getItems {α : Type} (q : Queue α) : List α := q.storage

/-- `setQueue(newQueue)` — throws before assigning when the new contents exceed
capacity, otherwise replaces the backing array with a copy.  The second
component is the queue after the call: on the throwing path the assignment is
never reached, so the queue is returned unchanged. -/
def Queue.setQueue {α : Type} (q : Queue α) (newQueue : List α) :
    Except String Unit × Queue α :=
  if q.capacity < (newQueue.length : Int) then
    (.error ("Cannot set queue: " ++ toString newQueue.length ++
      " items exceeds capacity of " ++ toString q.capacity), q)
  else
    (.ok (), { q with storage := newQueue })

/-- A sequence of `enqueue` calls, as a caller performing `n` pushes would
issue them. -/
def Queue.enqueueAll {α : Type} (q : Queue α) : List α → Option (Queue α)
  | [] => some q
  | x :: rest =>
    match q.enqueue x with
    | some q' => q'.enqueueAll rest
    | none => none

/-! ## Path safety (src/utils/pathSafety.ts) -/

def nulChar : Char := Char.ofNat 0

/-- The control-character class `[\x00-\x1f\x7f-\x9f]`. -/
def isControlChar (c : Char) : Bool :=
  decide (c.toNat ≤ 0x1f) || (decide (0x7f ≤ c.toNat) && decide (c.toNat ≤ 0x9f))

/-- `.replace(/\x00/g, '')` — remove null bytes. -/
def removeNulBytes (s : List Char) : List Char :=
  s.filter fun c => decide (¬ c = nulChar)

/-- `.replace(/[\/\\]/g, '_')` — replace path separators with underscores. -/
def replaceSeparators (s : List Char) : List Char :=
  s.map fun c => if c = '/' ∨ c = '\\' then '_' else c

/-- `.replace(/[\x00-\x1f\x7f-\x9f]/g, '_')` — replace control characters. -/
def replaceControl (s : List Char) : List Char :=
  s.map fun c => if isControlChar c then '_' else c

/-- `.replace(/^\.+/, '_')` — the maximal leading run of dots becomes a single
underscore. -/
def collapseLeadingDots (s : List Char) : List Char :=
  if s.head? = some '.' then '_' :: s.dropWhile (fun c => c == '.') else s

/-- The replacement pipeline inside `sanitizeFilename` (the four chained
`.replace` calls assigned to `sanitized`). -/
def strippedOf (input : List Char) : List Char :=
  collapseLeadingDots (replaceControl (replaceSeparators (removeNulBytes input)))

/-- The length cap: `if (sanitized.length > 255) sanitized =
sanitized.slice(0, 255)`. -/
def truncatedOf (input : List Char) : List Char :=
  if 255 < (strippedOf input).length then (strippedOf input).take 255
  else strippedOf input

/-- `sanitizeFilename` from pathSafety.ts. -/
def sanitizeFilename (input : List Char) : Except String (List Char) :=
  if input = [] then .error "Filename must be a non-empty string"
  else if truncatedOf input = [] then
    .error "Filename cannot be empty after sanitization"
  else .ok (truncatedOf input)

/-- Split a path on `'/'`; the result is never the empty list. -/
def splitOnSlash : List Char → List (List Char)
  | [] => [[]]
  | c :: rest =>
    if c = '/' then [] :: splitOnSlash rest
    else
      match splitOnSlash rest with
      | seg :: segs => (c :: seg) :: segs
      | [] => [[c]]

/-- Join segments back with `'/'` between them. -/
def joinSegs : List (List Char) → List Char
  | [] => []
  | seg :: segs =>
    match segs with
    | [] => seg
    | _ :: _ => seg ++ '/' :: joinSegs segs

/-- The normalisation pass of `path.resolve`/`path.normalize` on an absolute
path: empty and `.` segments are dropped, and `..` pops the previous segment
(at the root it stays at the root). -/
def normSegs : List (List Char) → List (List Char) → List (List Char)
  | acc, [] => acc
  | acc, seg :: rest =>
    if seg = [] ∨ seg = ['.'] then normSegs acc rest
    else if seg = ['.', '.'] then normSegs acc.dropLast rest
    else normSegs (acc ++ [seg]) rest

/-- `path.resolve` applied to an absolute path string (`path.join` already
normalises and normalisation is idempotent, so a single pass models
join-then-resolve). -/
def normalizeAbs (s : List Char) : List Char :=
  '/' :: joinSegs (normSegs [] (splitOnSlash s))

/-- The `.`/`..`-free segment list a path denotes. -/
def segsOf (p : List Char) : List (List Char) :=
  normSegs [] (splitOnSlash p)

/-- `p` lies at or below `root` once both strings are interpreted as paths. -/
def isDescendantOf (root p : List Char) : Bool :=
  decide ((segsOf p).take (segsOf root).length = segsOf root)

/-- `getSafeDataPath` from pathSafety.ts: sanitize, join onto the data
directory, resolve, then verify containment with the source's check
`resolvedPath.startsWith(DATA_DIR + path.sep) || resolvedPath === DATA_DIR`.
The data directory (`path.resolve(process.cwd(), 'data')`) is a parameter. -/
def getSafeDataPath (dataDir : List Char) (filename : List Char) :
    Except String (List Char) := do
  let sanitized ← sanitizeFilename filename
  let fullPath := dataDir ++ '/' :: sanitized
  let resolvedPath := normalizeAbs fullPath
  if (dataDir ++ ['/']).isPrefixOf resolvedPath = true ∨ resolvedPath = dataDir then
    pure resolvedPath
  else
    .error "Security: Path traversal detected. All files must be within the data directory."

/-- `String.prototype.includes`. -/
def hasSubstr (needle : List Char) : List Char → Bool
  | [] => needle.isEmpty
  | c :: rest => needle.isPrefixOf (c :: rest) || hasSubstr needle rest

/-- A path segment that the normalisation pass keeps verbatim. -/
def cleanSeg (seg : List Char) : Prop :=
  ¬ seg = [] ∧ ¬ seg = ['.'] ∧ ¬ seg = ['.', '.']

/-! ## Input validation (src/utils/validation.ts) -/

/-- The JavaScript regex class `\s` (ECMAScript WhiteSpace and LineTerminator
code points). -/
def isSpaceJS (c : Char) : Bool :=
  c == ' ' || c == '\t' || c == '\n' || c == '\r'
    || c.toNat == 11 || c.toNat == 12 || c.toNat == 160 || c.toNat == 5760
    || (decide (8192 ≤ c.toNat) && decide (c.toNat ≤ 8202))
    || c.toNat == 8232 || c.toNat == 8233 || c.toNat == 8239
    || c.toNat == 8287 || c.toNat == 12288 || c.toNat == 65279

/-- `.replace(/\s+/g, ' ')` worker: every run of whitespace becomes one
space.  The flag records whether the scan is inside a whitespace run whose
single replacement space has already been emitted. -/
def collapseWsAux : Bool → List Char → List Char
  | _, [] => []
  | inRun, c :: rest =>
    if isSpaceJS c then
      if inRun then collapseWsAux true rest
      else ' ' :: collapseWsAux true rest
    else c :: collapseWsAux false rest

/-- `.replace(/\s+/g, ' ')`. -/
def collapseWs (s : List Char) : List Char :=
  collapseWsAux false s

/-- `String.prototype.trim()`. -/
def trimJS (s : List Char) : List Char :=
  ((s.dropWhile isSpaceJS).reverse.dropWhile isSpaceJS).reverse

/-- The whitespace normalization `input.replace(/\s+/g, ' ').trim()` performed
by `validateMessageContent`. -/
def normalizeWs (s : List Char) : List Char :=
  trimJS (collapseWs s)

/-- Case-insensitive prefix test (the tag is given in lower case). -/
def matchesLower : List Char → List Char → Bool
  | [], _ => true
  | _ :: _, [] => false
  | t :: ts, c :: cs => (Char.toLower c == t) && matchesLower ts cs

/-- `.replace(/\[SYSTEM\]/gi, '[FILTERED]')` — left-to-right scan, matched text
replaced, replacement text not rescanned. -/
def replaceSystemTag : List Char → List Char
  | [] => []
  | c :: rest =>
    if matchesLower "[system]".toList (c :: rest) then
      "[FILTERED]".toList ++ replaceSystemTag (rest.drop 7)
    else c :: replaceSystemTag rest
termination_by s => s.length
decreasing_by
  · simp only [List.length_cons, List.length_drop]
    omega
  · simp only [List.length_cons]
    omega

/-- `.replace(/\[ADMIN\]/gi, '[FILTERED]')`. -/
def replaceAdminTag : List Char → List Char
  | [] => []
  | c :: rest =>
    if matchesLower "[admin]".toList (c :: rest) then
      "[FILTERED]".toList ++ replaceAdminTag (rest.drop 6)
    else c :: replaceAdminTag rest
termination_by s => s.length
decreasing_by
  · simp only [List.length_cons, List.length_drop]
    omega
  · simp only [List.length_cons]
    omega

/-- `validateMessageContent` from validation.ts: empty check, then the raw
4000-character ceiling, then whitespace normalization with an emptiness check,
then the `[SYSTEM]`/`[ADMIN]` filter on the result. -/
def validateMessageContent (input : List Char) : Except String (List Char) :=
  if input = [] then .error "Message content cannot be empty"
  else if 4000 < input.length then
    .error "Message too long (maximum 4000 characters)"
  else if normalizeWs input = [] then
    .error "Message content cannot be empty or whitespace-only"
  else .ok (replaceAdminTag (replaceSystemTag (normalizeWs input)))

/-- `validateChannelId` from validation.ts (`/^\d{17,19}$/`). -/
def validateChannelId (input : List Char) : Except String (List Char) :=
  if input = [] then .error "Channel ID cannot be empty"
  else if 17 ≤ input.length ∧ input.length ≤ 19 ∧ input.all Char.isDigit = true
  then .ok input
  else .error "Invalid Channel ID format (must be 17-19 digits)"

/-- `validateUsername` from validation.ts: empty check, the 37-character cap,
the path-traversal rejection, then `sanitizeFilename`. -/
def validateUsername (input : List Char) : Except String (List Char) :=
  if input = [] then .error "Username cannot be empty"
  else if 37 < input.length then .error "Username too long (maximum 37 characters)"
  else if hasSubstr "..".toList input || hasSubstr "/".toList input
      || hasSubstr "\\".toList input then
    .error "Username contains invalid path characters"
  else
    match sanitizeFilename input with
    | .ok s => .ok s
    | .error e => .error ("Invalid username: " ++ e)

/-! ## Document store (src/utils/handlers/configHandler.ts and
chatHistoryHandler.ts)

File contents are modelled abstractly: a present file either trims to the
empty string, is not valid JSON, or parses to a JSON value.  `JSON.parse`
throws on the first two; the TypeScript casts (`as Configuration`,
`as Channel`) are identities, so read operations return the parsed value
itself.  Filesystem effects are recorded as a list of operations in program
order, so that the write-staging discipline is visible in the model. -/

/-- JSON values.  Object fields are kept in insertion order, as JavaScript
objects do; `JSON.parse` never produces duplicate keys. -/
inductive Json where
  | null : Json
  | bool (b : Bool) : Json
  | num (n : Int) : Json
  | str (s : List Char) : Json
  | arr (elems : List Json) : Json
  | obj (fields : List (List Char × Json)) : Json

/-- What a present file's text can be, as far as `JSON.parse` and the
emptiness check can tell. -/
inductive FileContent where
  | emptyFile : FileContent
  | malformed : FileContent
  | json (v : Json) : FileContent

/-- The state of the data directory: contents by absolute path. -/
def FileSys : Type := List Char → Option FileContent

/-- Filesystem effects, in program order. -/
inductive FsOp where
  | mkdirOp : FsOp
  | writeFile (targetPath : List Char) (content : FileContent) : FsOp
  | renameFile (src dst : List Char) : FsOp

/-- The `.tmp` suffix of the staging file `${fullFileName}.tmp`. -/
def tmpSuffix : List Char := ".tmp".toList

/-- JavaScript property read on a parsed-JSON object (first — and only —
binding for a key). -/
def getProp : List (List Char × Json) → List Char → Option Json
  | [], _ => none
  | (k', v) :: rest, k => if k' = k then some v else getProp rest k

/-- JavaScript property write: an existing key is updated in place, a new key
is appended at the end (JavaScript object insertion order). -/
def setProp : List (List Char × Json) → List Char → Json → List (List Char × Json)
  | [], k, v => [(k, v)]
  | (k', v') :: rest, k, v =>
    if k' = k then (k, v) :: rest else (k', v') :: setProp rest k v

/-- JavaScript truthiness of a possibly-absent property value. -/
def truthy : Option Json → Bool
  | none => false
  | some .null => false
  | some (.bool b) => b
  | some (.num n) => decide (¬ n = 0)
  | some (.str s) => decide (¬ s = [])
  | some (.arr _) => true
  | some (.obj _) => true

/-- Modelled from the spec: `isServerConfigurationKey` lives in
`src/utils/index.ts`, which is not among the provided sources; the spec
describes per-group configuration as the feature-toggle namespace
(`toggle-chat`), all other option keys being per-actor. -/
def isServerConfigurationKey (key : List Char) : Bool :=
  decide (key = "toggle-chat".toList)

/-- `createDefaultConfig` from configHandler.ts. -/
def createDefaultConfig (key : List Char) (value : Json) : Json :=
  .obj [("name".toList,
          .str (if isServerConfigurationKey key then "Server Configurations".toList
                else "User Configurations".toList)),
        ("options".toList, .obj [(key, value)])]

/-- The read-modify part of `openConfig`'s try branch: ensure `object.options`
exists (`if (!object.options) object.options = {}`), then set
`object.options[key] = value`.  Property access on `null` and property
creation on a primitive throw `TypeError` (ES modules run in strict mode);
property sets on an array are invisible to `JSON.stringify` (the option keys
used by the bot are never numeric indices). -/
def updateConfigDoc (object : Json) (key : List Char) (value : Json) :
    Except String Json :=
  match object with
  | .obj fields =>
    match getProp fields "options".toList with
    | some (.obj opts) =>
      .ok (.obj (setProp fields "options".toList (.obj (setProp opts key value))))
    | some (.arr elems) =>
      .ok (.obj (setProp fields "options".toList (.arr elems)))
    | some (.bool b) =>
      if b then .error "TypeError: cannot create property on a primitive"
      else .ok (.obj (setProp fields "options".toList (.obj [(key, value)])))
    | some (.num n) =>
      if n = 0 then .ok (.obj (setProp fields "options".toList (.obj [(key, value)])))
      else .error "TypeError: cannot create property on a primitive"
    | some (.str s) =>
      if s = [] then .ok (.obj (setProp fields "options".toList (.obj [(key, value)])))
      else .error "TypeError: cannot create property on a primitive"
    | some .null => .ok (.obj (setProp fields "options".toList (.obj [(key, value)])))
    | none => .ok (.obj (setProp fields "options".toList (.obj [(key, value)])))
  | .arr elems => .ok (.arr elems)
  | .null => .error "TypeError: cannot read properties of null"
  | _ => .error "TypeError: cannot create property on a primitive"

/-- `openConfig` from configHandler.ts.  A missing file (ENOENT) is created
with the default configuration by a direct `writeFile`; an existing file is
parsed, sparsely updated, and committed by temp-file write plus rename.  The
result is the list of filesystem effects, in order. -/
def openConfig (dataDir : List Char) (fs : FileSys)
    (filename key : List Char) (value : Json) : Except String (List FsOp) := do
  let fullFileName ← getSafeDataPath dataDir filename
  match fs fullFileName with
  | none =>
    pure [.mkdirOp, .writeFile fullFileName (.json (createDefaultConfig key value))]
  | some .emptyFile =>
    throw "Failed to update config: JSON parse error"
  | some .malformed =>
    throw "Failed to update config: JSON parse error"
  | some (.json object) =>
    match updateConfigDoc object key value with
    | .error e => throw ("Failed to update config: " ++ e)
    | .ok newDoc =>
      pure [.writeFile (fullFileName ++ tmpSuffix) (.json newDoc),
            .renameFile (fullFileName ++ tmpSuffix) fullFileName]

/-- The structural check of `getUserConfig`/`getServerConfig`:
`if (!parsed.name || !parsed.options) throw`.  Property access on a non-object
yields `undefined` (falsy); on JSON `null` it throws a `TypeError`, which the
same catch block rethrows, so both collapse to the invalid-structure
failure. -/
def configStructValid : Json → Bool
  | .obj fields =>
    truthy (getProp fields "name".toList) && truthy (getProp fields "options".toList)
  | _ => false

/-- `getUserConfig` from configHandler.ts: `null` exactly on ENOENT; an empty
file, a parse failure, or a failed structural check throw. -/
def getUserConfig (dataDir : List Char) (fs : FileSys) (filename : List Char) :
    Except String (Option Json) := do
  let fullFileName ← getSafeDataPath dataDir filename
  match fs fullFileName with
  | none => pure none
  | some .emptyFile => throw "Failed to read user config: Configuration file is empty"
  | some .malformed => throw "Failed to read user config: JSON parse error"
  | some (.json parsed) =>
    if configStructValid parsed then pure (some parsed)
    else throw "Failed to read user config: Invalid configuration structure"

/-- `getServerConfig` from configHandler.ts (same logic as `getUserConfig`,
different cast and messages). -/
def getServerConfig (dataDir : List Char) (fs : FileSys) (filename : List Char) :
    Except String (Option Json) := do
  let fullFileName ← getSafeDataPath dataDir filename
  match fs fullFileName with
  | none => pure none
  | some .emptyFile => throw "Failed to read server config: Configuration file is empty"
  | some .malformed => throw "Failed to read server config: JSON parse error"
  | some (.json parsed) =>
    if configStructValid parsed then pure (some parsed)
    else throw "Failed to read server config: Invalid configuration structure"

/-- The structural check of `getChannelInfo`:
`if (!parsed.id || !parsed.name || !Array.isArray(parsed.messages)) throw`. -/
def channelStructValid : Json → Bool
  | .obj fields =>
    truthy (getProp fields "id".toList) && truthy (getProp fields "name".toList)
      && (match getProp fields "messages".toList with
          | some (.arr _) => true
          | _ => false)
  | _ => false

/-- `getChannelInfo` from chatHistoryHandler.ts. -/
def getChannelInfo (dataDir : List Char) (fs : FileSys) (filename : List Char) :
    Except String (Option Json) := do
  let fullFileName ← getSafeDataPath dataDir filename
  match fs fullFileName with
  | none => pure none
  | some .emptyFile => throw "Failed to read channel info: Channel info file is empty"
  | some .malformed => throw "Failed to read channel info: JSON parse error"
  | some (.json parsed) =>
    if channelStructValid parsed then pure (some parsed)
    else throw "Failed to read channel info: Invalid channel info structure"

/-- The `UserMessage` record (role, content, attachment list). -/
structure UserMessage where
  role : List Char
  content : List Char
  images : List (List Char)

/-- Serialization of a `UserMessage` as `JSON.stringify` sees it. -/
def UserMessage.toJson (m : UserMessage) : Json :=
  .obj [("role".toList, .str m.role), ("content".toList, .str m.content),
        ("images".toList, .arr (m.images.map Json.str))]

/-- The `Channel` object built by `saveChannelContext`/`saveChannelInfo`. -/
def channelDoc (channelId channelName user : List Char)
    (messages : List UserMessage) : Json :=
  .obj [("id".toList, .str channelId), ("name".toList, .str channelName),
        ("user".toList, .str user),
        ("messages".toList, .arr (messages.map UserMessage.toJson))]

/-- `saveChannelContext` from chatHistoryHandler.ts: validate the channel id,
resolve `{channelId}-context.json`, then mkdir, write the temp file, rename. -/
def saveChannelContext (dataDir : List Char) (channelId channelName : List Char)
    (messages : List UserMessage) : Except String (List FsOp) := do
  let cid ← validateChannelId channelId
  let fullFileName ← getSafeDataPath dataDir (cid ++ "-context.json".toList)
  pure [.mkdirOp,
        .writeFile (fullFileName ++ tmpSuffix)
          (.json (channelDoc channelId channelName "context".toList messages)),
        .renameFile (fullFileName ++ tmpSuffix) fullFileName]

/-- `saveChannelInfo` from chatHistoryHandler.ts: validate the channel id and
username, resolve `{channelId}-{username}.json`, then mkdir, write the temp
file, rename. -/
def saveChannelInfo (dataDir : List Char)
    (channelId channelName username : List Char)
    (messages : List UserMessage) : Except String (List FsOp) := do
  let cid ← validateChannelId channelId
  let uname ← validateUsername username
  let fullFileName ← getSafeDataPath dataDir
    (cid ++ "-".toList ++ uname ++ ".json".toList)
  pure [.mkdirOp,
        .writeFile (fullFileName ++ tmpSuffix)
          (.json (channelDoc channelId channelName username messages)),
        .renameFile (fullFileName ++ tmpSuffix) fullFileName]

/-- The staging discipline claimed by the spec: every `writeFile` in the trace
goes to a sibling `.tmp` path that is later renamed over its target. -/
def stagedWrites (trace : List FsOp) : Prop :=
  ∀ p c, FsOp.writeFile p c ∈ trace →
    ∃ dst, p = dst ++ tmpSuffix ∧ FsOp.renameFile p dst ∈ trace

/-- A concrete data root for witnesses and counterexamples. -/
def dataDirC : List Char := "/data".toList

/-- The empty data directory. -/
def fsEmpty : FileSys := fun _ => none

/-- A data directory holding one structurally invalid conversation document
(the file contains `{}`). -/
def fsInvalidChannel : FileSys := fun p =>
  if p = "/data/chan.json".toList then some (.json (.obj [])) else none

/-- A data directory holding one existing user configuration document. -/
def fsCfg : FileSys := fun p =>
  if p = "/data/user-config.json".toList then
    some (.json (.obj [("name".toList, .str "User Configurations".toList),
      ("options".toList, .obj [("switch-model".toList, .str "a".toList)])]))
  else none

/-!  ## Theorems -/

theorem evictLoop_eq {α : Type} (capacity : Int) (hc : 1 ≤ capacity) :
    ∀ (fuel : Nat) (s : List α), s.length < fuel →
      evictLoop capacity fuel s = some (s.drop (s.length + 1 - capacity.toNat)) := by
  intro fuel
  induction fuel with
  | zero => intro s h; exact absurd h (Nat.not_lt_zero _)
  | succ n ih =>
    intro s h
    by_cases hlen : capacity ≤ (s.length : Int)
    · have hpos : 1 ≤ s.length := by omega
      have htail : s.tail.length < n := by
        have := List.length_tail s
        omega
      rw [evictLoop, if_pos hlen, ih s.tail htail]
      have hd : s.tail = s.drop 1 := (List.drop_one s).symm
      rw [hd, List.drop_drop]
      have harg : 1 + ((s.drop 1).length + 1 - capacity.toNat)
          = s.length + 1 - capacity.toNat := by
        rw [List.length_drop]; omega
      rw [harg]
    · rw [evictLoop, if_neg hlen]
      have : s.length + 1 - capacity.toNat = 0 := by omega
      rw [this, List.drop_zero]

theorem Queue.enqueue_eq {α : Type} (q : Queue α) (x : α) (hc : 1 ≤ q.capacity) :
    q.enqueue x
      = some { storage := q.storage.drop (q.storage.length + 1 - q.capacity.toNat) ++ [x],
               capacity := q.capacity } := by
  unfold Queue.enqueue
  rw [evictLoop_eq q.capacity hc _ _ (Nat.lt_succ_self _)]

/-- Helper for the claim-scoped drop lemma: dropping inside the left part of an
append. -/
theorem drop_append_le {α : Type} :
    ∀ (n : Nat) (l₁ l₂ : List α), n ≤ l₁.length →
      (l₁ ++ l₂).drop n = l₁.drop n ++ l₂ := by
  intro n l₁
  induction l₁ generalizing n with
  | nil =>
    intro l₂ h
    have hn : n = 0 := by simpa using h
    subst hn
    simp
  | cons a t ih =>
    intro l₂ h
    cases n with
    | zero => simp
    | succ m =>
      simp only [List.cons_append, List.drop_succ_cons]
      exact ih m l₂ (by simpa using h)

theorem enqueueAll_eq {α : Type} (c : Nat) (hc : 1 ≤ c) :
    ∀ (xs s : List α), s.length ≤ c →
      Queue.enqueueAll { storage := s, capacity := (c : Int) } xs
        = some { storage := (s ++ xs).drop (s.length + xs.length - c),
                 capacity := (c : Int) } := by
  intro xs
  induction xs with
  | nil =>
    intro s hs
    rw [Queue.enqueueAll]
    have h0 : s.length + ([] : List α).length - c = 0 := by
      simp only [List.length_nil]
      omega
    rw [h0]
    simp
  | cons x rest ih =>
    intro s hs
    have hcI : (1 : Int) ≤ (c : Int) := by exact_mod_cast hc
    have htoNat : ((c : Int)).toNat = c := by omega
    rw [Queue.enqueueAll, Queue.enqueue_eq _ _ hcI]
    simp only [htoNat]
    set d := s.length + 1 - c with hd
    have hdle : d ≤ s.length := by omega
    have hlen' : (s.drop d ++ [x]).length = s.length - d + 1 := by
      simp [List.length_drop]
    rw [ih (s.drop d ++ [x]) (by omega)]
    have hstor : ((s.drop d ++ [x]) ++ rest).drop
          ((s.drop d ++ [x]).length + rest.length - c)
        = (s ++ x :: rest).drop (s.length + (x :: rest).length - c) := by
      rw [hlen', List.append_assoc, ← drop_append_le d s ([x] ++ rest) hdle,
        List.drop_drop]
      have hidx : d + (s.length - d + 1 + rest.length - c)
          = s.length + (x :: rest).length - c := by
        simp only [List.length_cons]
        omega
      rw [hidx]
      simp
    rw [hstor]

/-- Claim C4: starting from the empty queue with fixed capacity `c ≥ 1`, after
`n > c` enqueue calls the size equals `c` and the retained elements are exactly
the last `c` items pushed, in push order (oldest first). -/
theorem queue_overflow_retains_last (α : Type) (c : Nat) (hc : 1 ≤ c)
    (xs : List α) (hn : c < xs.length) :
    Queue.enqueueAll { storage := [], capacity := (c : Int) } xs
      = some { storage := xs.drop (xs.length - c), capacity := (c : Int) }
    ∧ (xs.drop (xs.length - c)).length = c := by
  constructor
  · have h := enqueueAll_eq c hc xs [] (by simp)
    simpa using h
  · rw [List.length_drop]; omega

/-- Witness for C4 at capacity 2 with three pushes. -/
theorem queue_overflow_retains_last_witness :
    Queue.enqueueAll { storage := [], capacity := ((2 : Nat) : Int) } [10, 20, 30]
      = some { storage := [20, 30], capacity := ((2 : Nat) : Int) } :=
  (queue_overflow_retains_last Nat 2 (by decide) [10, 20, 30] (by decide)).1

/-- Claim C5 counterexample: on a queue already at capacity, `enqueue` evicts
the oldest element before appending, so `enqueue` followed by `removeLast` does
not restore the previous state — the oldest element is lost. -/
theorem rollback_counterexample :
    Queue.enqueue ({ storage := [0], capacity := 1 } : Queue Nat) 1
        = some { storage := [1], capacity := 1 }
    ∧ (Queue.removeLast ({ storage := [1], capacity := 1 } : Queue Nat)).1
        ≠ ({ storage := [0], capacity := 1 } : Queue Nat) := by
  constructor
  · rfl
  · decide

/-- Claim C5 (amended): for every queue whose size is strictly below its
capacity, `enqueue x` followed by `removeLast` returns exactly the pushed item
and leaves the queue in its previous externally observable state. -/
theorem rollback_below_capacity (α : Type) (q : Queue α) (x : α)
    (h : (q.storage.length : Int) < q.capacity) :
    q.enqueue x = some { storage := q.storage ++ [x], capacity := q.capacity }
    ∧ Queue.removeLast { storage := q.storage ++ [x], capacity := q.capacity }
        = (q, some x) := by
  have hc : 1 ≤ q.capacity := by omega
  constructor
  · rw [Queue.enqueue_eq q x hc]
    have h0 : q.storage.length + 1 - q.capacity.toNat = 0 := by omega
    rw [h0, List.drop_zero]
  · unfold Queue.removeLast
    simp

/-- Witness for C5 (amended) on a queue with spare room. -/
theorem rollback_below_capacity_witness :
    Queue.enqueue ({ storage := [4], capacity := 3 } : Queue Nat) 9
      = some { storage := [4, 9], capacity := 3 } :=
  (rollback_below_capacity Nat { storage := [4], capacity := 3 } 9 (by decide)).1

/-- Claim C6: `setQueue` rejects a replacement longer than the capacity and in
that case leaves the queue exactly as it was (no truncation, no partial
replacement); a replacement of length at most the capacity replaces the
contents with a copy of the given sequence. -/
theorem setQueue_capacity_guard (α : Type) (q : Queue α) (newQueue : List α) :
    (q.capacity < (newQueue.length : Int) →
        (q.setQueue newQueue).2 = q ∧ ∃ e, (q.setQueue newQueue).1 = .error e)
    ∧ ((newQueue.length : Int) ≤ q.capacity →
        q.setQueue newQueue
          = (.ok (), { storage := newQueue, capacity := q.capacity })) := by
  constructor
  · intro h
    unfold Queue.setQueue
    rw [if_pos h]
    exact ⟨rfl, _, rfl⟩
  · intro h
    unfold Queue.setQueue
    rw [if_neg (not_lt.mpr h)]

/-- Witness for C6: a 4-element replacement on a capacity-3 queue fails and the
contents survive untouched. -/
theorem setQueue_capacity_guard_witness :
    (Queue.setQueue ({ storage := [1, 2, 3], capacity := 3 } : Queue Nat)
        [4, 5, 6, 7]).2
      = ({ storage := [1, 2, 3], capacity := 3 } : Queue Nat) :=
  ((setQueue_capacity_guard Nat { storage := [1, 2, 3], capacity := 3 }
    [4, 5, 6, 7]).1 (by decide)).1

/-- Claim C10: whenever the (publicly mutable) capacity field is at least 1,
`enqueue` terminates — the eviction loop needs at most `size()` iterations, so
it completes within the modelled fuel; and the precondition is genuine: with
`capacity ≤ 0` the loop condition never becomes false on an empty queue, i.e.
the loop diverges for every fuel. -/
theorem enqueue_termination (α : Type) (q : Queue α) (x : α)
    (h : 1 ≤ q.capacity) :
    (q.enqueue x).isSome = true
    ∧ ∀ (c : Int) (fuel : Nat), c ≤ 0 →
        evictLoop c fuel ([] : List α) = none := by
  constructor
  · rw [Queue.enqueue_eq q x h]; rfl
  · intro c fuel hc
    induction fuel with
    | zero =>
      rw [evictLoop, if_pos (by simp; omega)]
    | succ n ih =>
      rw [evictLoop, if_pos (by simp; omega)]
      simpa using ih

/-- Witness for C10 on a full capacity-2 queue. -/
theorem enqueue_termination_witness :
    (Queue.enqueue ({ storage := [5, 6], capacity := 2 } : Queue Nat) 7).isSome
      = true :=
  (enqueue_termination Nat { storage := [5, 6], capacity := 2 } 7 (by decide)).1

theorem mem_replaceSeparators_ne_slash (t : List Char) :
    ∀ c ∈ replaceSeparators t, ¬ c = '/' := by
  intro c hc
  rw [replaceSeparators, List.mem_map] at hc
  obtain ⟨a, _, rfl⟩ := hc
  by_cases h : a = '/' ∨ a = '\\'
  · rw [if_pos h]; decide
  · rw [if_neg h]
    intro hEq
    exact h (Or.inl hEq)

theorem mem_replaceControl (t : List Char) :
    ∀ c ∈ replaceControl t, c = '_' ∨ c ∈ t := by
  intro c hc
  rw [replaceControl, List.mem_map] at hc
  obtain ⟨a, ha, rfl⟩ := hc
  by_cases h : isControlChar a
  · rw [if_pos h]; exact Or.inl rfl
  · rw [if_neg h]; exact Or.inr ha

theorem mem_collapseLeadingDots (t : List Char) :
    ∀ c ∈ collapseLeadingDots t, c = '_' ∨ c ∈ t := by
  intro c hc
  rw [collapseLeadingDots] at hc
  by_cases h : t.head? = some '.'
  · rw [if_pos h] at hc
    rcases List.mem_cons.mp hc with h1 | h1
    · exact Or.inl h1
    · exact Or.inr ((List.dropWhile_sublist _).mem h1)
  · rw [if_neg h] at hc
    exact Or.inr hc

theorem head?_collapseLeadingDots_ne_dot (t : List Char) :
    ∀ c, (collapseLeadingDots t).head? = some c → ¬ c = '.' := by
  intro c hc
  rw [collapseLeadingDots] at hc
  by_cases h : t.head? = some '.'
  · rw [if_pos h] at hc
    simp only [List.head?_cons, Option.some.injEq] at hc
    subst hc; decide
  · rw [if_neg h] at hc
    rw [hc] at h
    intro hEq
    exact h (by rw [hEq])

theorem sanitizeFilename_ok_props (raw s : List Char)
    (h : sanitizeFilename raw = .ok s) :
    (∀ c ∈ s, ¬ c = '/') ∧ ¬ s = [] ∧ ∀ c, s.head? = some c → ¬ c = '.' := by
  rw [sanitizeFilename] at h
  by_cases h0 : raw = []
  · rw [if_pos h0] at h; exact absurd h (by simp)
  rw [if_neg h0] at h
  by_cases h1 : truncatedOf raw = []
  · rw [if_pos h1] at h; exact absurd h (by simp)
  rw [if_neg h1] at h
  have hs : s = truncatedOf raw := by
    simp only [Except.ok.injEq] at h
    exact h.symm
  subst hs
  have hsub : truncatedOf raw = (strippedOf raw).take 255
      ∨ truncatedOf raw = strippedOf raw := by
    rw [truncatedOf]
    by_cases h2 : 255 < (strippedOf raw).length
    · rw [if_pos h2]; exact Or.inl rfl
    · rw [if_neg h2]; exact Or.inr rfl
  have hmem : ∀ c ∈ truncatedOf raw, c ∈ strippedOf raw := by
    intro c hc
    rcases hsub with h2 | h2
    · rw [h2] at hc; exact (List.take_sublist _ _).mem hc
    · rw [h2] at hc; exact hc
  have hmem' : ∀ c ∈ strippedOf raw, ¬ c = '/' := by
    intro c hc
    rcases mem_collapseLeadingDots _ c hc with h2 | h2
    · subst h2; decide
    rcases mem_replaceControl _ c h2 with h3 | h3
    · subst h3; decide
    · exact mem_replaceSeparators_ne_slash _ c h3
  refine ⟨fun c hc => hmem' c (hmem c hc), h1, ?_⟩
  intro c hc
  have hhead : (truncatedOf raw).head? = (strippedOf raw).head? := by
    rcases hsub with h2 | h2
    · rw [h2]
      cases hcase : strippedOf raw with
      | nil => rfl
      | cons a rest => rfl
    · rw [h2]
  rw [hhead] at hc
  exact head?_collapseLeadingDots_ne_dot _ c hc

theorem splitOnSlash_ne_nil (s : List Char) : ¬ splitOnSlash s = [] := by
  induction s with
  | nil => simp [splitOnSlash]
  | cons c rest ih =>
    rw [splitOnSlash]
    by_cases h : c = '/'
    · rw [if_pos h]; simp
    · rw [if_neg h]
      cases hsp : splitOnSlash rest with
      | nil => simp
      | cons seg segs => simp

theorem splitOnSlash_cons_slash (rest : List Char) :
    splitOnSlash ('/' :: rest) = [] :: splitOnSlash rest := by
  rw [splitOnSlash, if_pos rfl]

theorem splitOnSlash_cons_ne (c : Char) (rest : List Char) (h : ¬ c = '/')
    (seg : List Char) (segs : List (List Char))
    (hsp : splitOnSlash rest = seg :: segs) :
    splitOnSlash (c :: rest) = (c :: seg) :: segs := by
  rw [splitOnSlash, if_neg h, hsp]

theorem splitOnSlash_exists_cons (s : List Char) :
    ∃ seg segs, splitOnSlash s = seg :: segs := by
  cases hsp : splitOnSlash s with
  | nil => exact absurd hsp (splitOnSlash_ne_nil s)
  | cons seg segs => exact ⟨seg, segs, rfl⟩

theorem splitOnSlash_append_slash (x y : List Char) :
    splitOnSlash (x ++ '/' :: y) = splitOnSlash x ++ splitOnSlash y := by
  induction x with
  | nil =>
    rw [List.nil_append, splitOnSlash_cons_slash]
    rfl
  | cons a x' ih =>
    by_cases h : a = '/'
    · subst h
      rw [List.cons_append, splitOnSlash_cons_slash, splitOnSlash_cons_slash, ih]
      rfl
    · obtain ⟨seg, segs, hx⟩ := splitOnSlash_exists_cons x'
      have hx2 : splitOnSlash (x' ++ '/' :: y) = seg :: (segs ++ splitOnSlash y) := by
        rw [ih, hx]
        rfl
      rw [List.cons_append, splitOnSlash_cons_ne a _ h _ _ hx2,
        splitOnSlash_cons_ne a _ h _ _ hx]
      rfl

theorem splitOnSlash_no_slash (s : List Char) (h : ∀ c ∈ s, ¬ c = '/') :
    splitOnSlash s = [s] := by
  induction s with
  | nil => rfl
  | cons a rest ih =>
    rw [splitOnSlash, if_neg (h a (List.mem_cons_self a rest)),
      ih (fun c hc => h c (List.mem_cons_of_mem a hc))]

theorem mem_splitOnSlash_no_slash (t : List Char) :
    ∀ seg ∈ splitOnSlash t, ∀ c ∈ seg, ¬ c = '/' := by
  induction t with
  | nil =>
    intro seg hseg
    simp [splitOnSlash] at hseg
    subst hseg; simp
  | cons a rest ih =>
    intro seg hseg
    rw [splitOnSlash] at hseg
    by_cases h : a = '/'
    · rw [if_pos h] at hseg
      rcases List.mem_cons.mp hseg with h1 | h1
      · subst h1; simp
      · exact ih seg h1
    · rw [if_neg h] at hseg
      cases hsp : splitOnSlash rest with
      | nil => exact absurd hsp (splitOnSlash_ne_nil rest)
      | cons s0 ss =>
        rw [hsp] at hseg
        rcases List.mem_cons.mp hseg with h1 | h1
        · subst h1
          intro c hc
          rcases List.mem_cons.mp hc with h2 | h2
          · subst h2; exact h
          · exact ih s0 (hsp ▸ List.mem_cons_self s0 ss) c h2
        · exact ih seg (hsp ▸ List.mem_cons_of_mem s0 h1)

theorem normSegs_append (l₁ l₂ : List (List Char)) :
    ∀ acc, normSegs acc (l₁ ++ l₂) = normSegs (normSegs acc l₁) l₂ := by
  induction l₁ with
  | nil => intro acc; rfl
  | cons seg rest ih =>
    intro acc
    rw [List.cons_append, normSegs, normSegs]
    by_cases h1 : seg = [] ∨ seg = ['.']
    · rw [if_pos h1, if_pos h1, ih]
    rw [if_neg h1, if_neg h1]
    by_cases h2 : seg = ['.', '.']
    · rw [if_pos h2, if_pos h2, ih]
    · rw [if_neg h2, if_neg h2, ih]

theorem normSegs_clean (segs : List (List Char))
    (h : ∀ seg ∈ segs, cleanSeg seg) :
    ∀ acc, normSegs acc segs = acc ++ segs := by
  induction segs with
  | nil => intro acc; simp [normSegs]
  | cons seg rest ih =>
    intro acc
    obtain ⟨hn, hd, hdd⟩ := h seg (List.mem_cons_self seg rest)
    rw [normSegs, if_neg (by tauto), if_neg hdd,
      ih (fun s hs => h s (List.mem_cons_of_mem seg hs))]
    simp

theorem mem_normSegs (l : List (List Char)) :
    ∀ acc seg, seg ∈ normSegs acc l → seg ∈ acc ∨ seg ∈ l := by
  induction l with
  | nil => intro acc seg h; exact Or.inl h
  | cons a rest ih =>
    intro acc seg h
    rw [normSegs] at h
    by_cases h1 : a = [] ∨ a = ['.']
    · rw [if_pos h1] at h
      rcases ih acc seg h with h2 | h2
      · exact Or.inl h2
      · exact Or.inr (List.mem_cons_of_mem a h2)
    rw [if_neg h1] at h
    by_cases h2 : a = ['.', '.']
    · rw [if_pos h2] at h
      rcases ih acc.dropLast seg h with h3 | h3
      · exact Or.inl ((List.dropLast_sublist acc).mem h3)
      · exact Or.inr (List.mem_cons_of_mem a h3)
    · rw [if_neg h2] at h
      rcases ih (acc ++ [a]) seg h with h3 | h3
      · rcases List.mem_append.mp h3 with h4 | h4
        · exact Or.inl h4
        · rw [List.mem_singleton] at h4
          rw [h4]
          exact Or.inr (List.mem_cons_self a rest)
      · exact Or.inr (List.mem_cons_of_mem a h3)

theorem normSegs_clean_out (l : List (List Char)) :
    ∀ acc, (∀ seg ∈ acc, cleanSeg seg) → ∀ seg ∈ normSegs acc l, cleanSeg seg := by
  induction l with
  | nil => intro acc hacc seg h; exact hacc seg h
  | cons a rest ih =>
    intro acc hacc seg h
    rw [normSegs] at h
    by_cases h1 : a = [] ∨ a = ['.']
    · rw [if_pos h1] at h
      exact ih acc hacc seg h
    rw [if_neg h1] at h
    by_cases h2 : a = ['.', '.']
    · rw [if_pos h2] at h
      exact ih acc.dropLast
        (fun s hs => hacc s ((List.dropLast_sublist acc).mem hs)) seg h
    · rw [if_neg h2] at h
      refine ih (acc ++ [a]) ?_ seg h
      intro s hs
      rcases List.mem_append.mp hs with h3 | h3
      · exact hacc s h3
      · simp at h3
        subst h3
        push_neg at h1
        exact ⟨h1.1, h1.2, h2⟩

theorem joinSegs_append_singleton (segs : List (List Char)) (s : List Char)
    (h : ¬ segs = []) :
    joinSegs (segs ++ [s]) = joinSegs segs ++ '/' :: s := by
  induction segs with
  | nil => exact absurd rfl h
  | cons a rest ih =>
    cases rest with
    | nil => rfl
    | cons b rest' =>
      calc joinSegs ((a :: b :: rest') ++ [s])
          = a ++ '/' :: joinSegs ((b :: rest') ++ [s]) := rfl
        _ = a ++ '/' :: (joinSegs (b :: rest') ++ '/' :: s) := by rw [ih (by simp)]
        _ = (a ++ '/' :: joinSegs (b :: rest')) ++ '/' :: s := by simp
        _ = joinSegs (a :: b :: rest') ++ '/' :: s := rfl

theorem splitOnSlash_joinSegs (segs : List (List Char)) (hne : ¬ segs = [])
    (h : ∀ seg ∈ segs, ∀ c ∈ seg, ¬ c = '/') :
    splitOnSlash (joinSegs segs) = segs := by
  induction segs with
  | nil => exact absurd rfl hne
  | cons a rest ih =>
    cases rest with
    | nil =>
      rw [joinSegs]
      exact splitOnSlash_no_slash a (h a (List.mem_cons_self a []))
    | cons b rest' =>
      calc splitOnSlash (joinSegs (a :: b :: rest'))
          = splitOnSlash (a ++ '/' :: joinSegs (b :: rest')) := rfl
        _ = splitOnSlash a ++ splitOnSlash (joinSegs (b :: rest')) :=
            splitOnSlash_append_slash _ _
        _ = [a] ++ (b :: rest') := by
            rw [splitOnSlash_no_slash a (h a (List.mem_cons_self a _)),
              ih (by simp) (fun seg hseg => h seg (List.mem_cons_of_mem a hseg))]
        _ = a :: b :: rest' := rfl

theorem normSegs_nil_cons (acc l : List (List Char)) :
    normSegs acc ([] :: l) = normSegs acc l := by
  rw [normSegs, if_pos (Or.inl rfl)]

/-- Resolving the data directory joined with one clean (separator-free,
non-dot) segment yields exactly the directory's segments extended by that
segment. -/
theorem resolve_appends_clean_segment (dataDir s : List Char)
    (hs1 : ∀ c ∈ s, ¬ c = '/') (hs2 : ¬ s = [])
    (hs3 : ¬ s = ['.']) (hs4 : ¬ s = ['.', '.']) :
    segsOf (normalizeAbs (dataDir ++ '/' :: s)) = segsOf dataDir ++ [s] := by
  have hsclean : cleanSeg s := ⟨hs2, hs3, hs4⟩
  have hDclean : ∀ seg ∈ segsOf dataDir, cleanSeg seg :=
    normSegs_clean_out _ []
      (fun seg hseg => absurd hseg (List.not_mem_nil seg))
  have hDnoslash : ∀ seg ∈ segsOf dataDir, ∀ c ∈ seg, ¬ c = '/' := by
    intro seg hseg
    rcases mem_normSegs _ [] seg hseg with h1 | h1
    · exact absurd h1 (List.not_mem_nil seg)
    · exact mem_splitOnSlash_no_slash dataDir seg h1
  have hsplit : splitOnSlash (dataDir ++ '/' :: s)
      = splitOnSlash dataDir ++ [s] := by
    rw [splitOnSlash_append_slash, splitOnSlash_no_slash s hs1]
  have hDs_clean : ∀ seg ∈ segsOf dataDir ++ [s], cleanSeg seg := by
    intro seg hseg
    rcases List.mem_append.mp hseg with h1 | h1
    · exact hDclean seg h1
    · rw [List.mem_singleton] at h1
      rw [h1]
      exact hsclean
  have hnorm1 : normSegs [] (splitOnSlash (dataDir ++ '/' :: s))
      = segsOf dataDir ++ [s] := by
    rw [hsplit, normSegs_append]
    exact normSegs_clean [s]
      (by
        intro seg hseg
        rw [List.mem_singleton] at hseg
        rw [hseg]
        exact hsclean) _
  have hform : normalizeAbs (dataDir ++ '/' :: s)
      = '/' :: joinSegs (segsOf dataDir ++ [s]) := by
    rw [normalizeAbs, hnorm1]
  rw [hform, segsOf, splitOnSlash_cons_slash,
    splitOnSlash_joinSegs (segsOf dataDir ++ [s]) (by simp)
      (by
        intro seg hseg
        rcases List.mem_append.mp hseg with h1 | h1
        · exact hDnoslash seg h1
        · rw [List.mem_singleton] at h1
          rw [h1]
          exact hs1),
    normSegs_nil_cons]
  simpa using normSegs_clean _ hDs_clean []

theorem getSafeDataPath_ok_form (dataDir raw s : List Char)
    (hsan : sanitizeFilename raw = .ok s) :
    getSafeDataPath dataDir raw
      = if (dataDir ++ ['/']).isPrefixOf (normalizeAbs (dataDir ++ '/' :: s)) = true
            ∨ normalizeAbs (dataDir ++ '/' :: s) = dataDir
        then .ok (normalizeAbs (dataDir ++ '/' :: s))
        else .error "Security: Path traversal detected. All files must be within the data directory." := by
  unfold getSafeDataPath
  rw [hsan]
  rfl

/-- Claim C1: for every raw string containing `../`, `/`, `\`, or NUL bytes,
sanitization composed with resolution against the data root either throws or
returns a path whose resolved segments extend the data root's segments — never
a path outside the root. -/
theorem sanitize_resolve_confined (dataDir raw : List Char)
    (hbad : hasSubstr "../".toList raw = true ∨ hasSubstr "/".toList raw = true
      ∨ hasSubstr "\\".toList raw = true ∨ nulChar ∈ raw) :
    (∃ e, getSafeDataPath dataDir raw = .error e)
    ∨ ∃ p, getSafeDataPath dataDir raw = .ok p
        ∧ isDescendantOf dataDir p = true := by
  cases hsan : sanitizeFilename raw with
  | error e =>
    left
    refine ⟨e, ?_⟩
    unfold getSafeDataPath
    rw [hsan]
    rfl
  | ok s =>
    obtain ⟨hs1, hs2, hhead⟩ := sanitizeFilename_ok_props raw s hsan
    have hs3 : ¬ s = ['.'] := by
      intro hEq
      exact hhead '.' (by rw [hEq]; rfl) rfl
    have hs4 : ¬ s = ['.', '.'] := by
      intro hEq
      exact hhead '.' (by rw [hEq]; rfl) rfl
    rw [getSafeDataPath_ok_form dataDir raw s hsan]
    by_cases hguard :
        (dataDir ++ ['/']).isPrefixOf (normalizeAbs (dataDir ++ '/' :: s)) = true
          ∨ normalizeAbs (dataDir ++ '/' :: s) = dataDir
    · right
      refine ⟨normalizeAbs (dataDir ++ '/' :: s), by rw [if_pos hguard], ?_⟩
      rw [isDescendantOf, resolve_appends_clean_segment dataDir s hs1 hs2 hs3 hs4,
        List.take_left]
      exact decide_eq_true rfl
    · left
      exact ⟨_, by rw [if_neg hguard]⟩

/-- Witness for C1: the spec's own scenario `"../../etc/passwd"` against the
root `/data`. -/
theorem sanitize_resolve_confined_witness :
    (∃ e, getSafeDataPath "/data".toList "../../etc/passwd".toList = .error e)
    ∨ ∃ p, getSafeDataPath "/data".toList "../../etc/passwd".toList = .ok p
        ∧ isDescendantOf "/data".toList p = true :=
  sanitize_resolve_confined "/data".toList "../../etc/passwd".toList (by decide)

set_option maxRecDepth 40000 in
/-- Claim C8 counterexample: a 256-character raw name is not rejected — the
code truncates it to 255 characters and returns a key. -/
theorem sanitize_overlong_counterexample :
    255 < (List.replicate 256 'a').length
    ∧ sanitizeFilename (List.replicate 256 'a') = .ok (List.replicate 255 'a') := by
  constructor
  · rw [List.length_replicate]
    norm_num
  · rfl

/-- Claim C8 (amended): `sanitizeFilename` fails exactly for the empty input
and for inputs that become empty after stripping (all characters NUL); a raw
string longer than 255 characters is truncated to the 255-character ceiling
and accepted, not rejected, so every returned key has length at most 255. -/
theorem sanitize_reject_iff (raw : List Char) :
    ((sanitizeFilename raw).isOk = true
      ↔ (¬ raw = [] ∧ ¬ removeNulBytes raw = []))
    ∧ ∀ s, sanitizeFilename raw = .ok s → s.length ≤ 255 := by
  have hcol_nil : ∀ v : List Char, collapseLeadingDots v = [] ↔ v = [] := by
    intro v
    constructor
    · intro h
      rw [collapseLeadingDots] at h
      by_cases hh : v.head? = some '.'
      · rw [if_pos hh] at h
        exact absurd h (by simp)
      · rw [if_neg hh] at h
        exact h
    · intro h
      rw [h]
      rfl
  have hstr_nil : strippedOf raw = [] ↔ removeNulBytes raw = [] := by
    rw [strippedOf, hcol_nil, replaceControl, List.map_eq_nil_iff, replaceSeparators,
      List.map_eq_nil_iff]
  have htr_nil : truncatedOf raw = [] ↔ removeNulBytes raw = [] := by
    rw [truncatedOf]
    by_cases ht : 255 < (strippedOf raw).length
    · rw [if_pos ht]
      constructor
      · intro h
        rcases List.take_eq_nil_iff.mp h with h1 | h1
        · exact absurd h1 (by norm_num)
        · rw [h1] at ht
          exact absurd ht (by simp)
      · intro h
        rw [← hstr_nil] at h
        rw [h] at ht
        exact absurd ht (by simp)
    · rw [if_neg ht]
      exact hstr_nil
  constructor
  · rw [sanitizeFilename]
    by_cases h0 : raw = []
    · rw [if_pos h0]
      simp [h0, Except.isOk, Except.toBool]
    rw [if_neg h0]
    by_cases h1 : truncatedOf raw = []
    · rw [if_pos h1]
      simp [h0, htr_nil.mp h1, Except.isOk, Except.toBool]
    · rw [if_neg h1]
      simp [h0, Except.isOk, Except.toBool]
      exact fun hnul => h1 (htr_nil.mpr hnul)
  · intro s hs
    rw [sanitizeFilename] at hs
    by_cases h0 : raw = []
    · rw [if_pos h0] at hs
      exact absurd hs (by simp)
    rw [if_neg h0] at hs
    by_cases h1 : truncatedOf raw = []
    · rw [if_pos h1] at hs
      exact absurd hs (by simp)
    rw [if_neg h1] at hs
    have hseq : s = truncatedOf raw := by
      simp only [Except.ok.injEq] at hs
      exact hs.symm
    subst hseq
    rw [truncatedOf]
    by_cases ht : 255 < (strippedOf raw).length
    · rw [if_pos ht, List.length_take]
      omega
    · rw [if_neg ht]
      omega

/-- Witness for C8 (amended): applying the length bound to a concrete accepted
key. -/
theorem sanitize_reject_iff_witness : ("user".toList).length ≤ 255 :=
  (sanitize_reject_iff "user".toList).2 "user".toList rfl

theorem collapseWsAux_space_replicate (n : Nat) :
    collapseWsAux true (List.replicate n ' ') = [] := by
  induction n with
  | zero => rfl
  | succ m ih =>
    rw [List.replicate_succ, collapseWsAux, if_pos (by decide), if_pos rfl]
    exact ih

/-- Claim C9 counterexample: the string `'a'` followed by 4000 spaces
normalizes to `"a"` — non-empty and far below 4000 characters — yet the call
rejects it, because the ceiling is applied to the raw, un-normalized input. -/
theorem message_limit_counterexample :
    normalizeWs ('a' :: List.replicate 4000 ' ') = ['a']
    ∧ (normalizeWs ('a' :: List.replicate 4000 ' ')).length ≤ 4000
    ∧ (validateMessageContent ('a' :: List.replicate 4000 ' ')).isOk = false := by
  have h2 : collapseWs ('a' :: List.replicate 4000 ' ') = ['a', ' '] := by
    rw [collapseWs, collapseWsAux, if_neg (by decide),
      show (4000 : Nat) = 3999 + 1 from rfl, List.replicate_succ,
      collapseWsAux, if_pos (by decide), if_neg (by decide),
      collapseWsAux_space_replicate 3999]
  have hnorm : normalizeWs ('a' :: List.replicate 4000 ' ') = ['a'] := by
    rw [normalizeWs, trimJS, h2]
    decide
  have hlen : ('a' :: List.replicate 4000 ' ').length = 4001 := by
    rw [List.length_cons, List.length_replicate]
  refine ⟨hnorm, by rw [hnorm]; decide, ?_⟩
  rw [validateMessageContent, if_neg (List.cons_ne_nil _ _),
    if_pos (by rw [hlen]; norm_num)]
  rfl

/-- Claim C9 (amended): `validateMessageContent` accepts exactly the inputs
that are non-empty, of raw length at most 4000 characters, and whose
whitespace-normalized content is non-empty — the 4000-character ceiling applies
to the raw input, before normalization. -/
theorem message_limit_iff (s : List Char) :
    (validateMessageContent s).isOk = true
      ↔ (¬ s = [] ∧ s.length ≤ 4000 ∧ ¬ normalizeWs s = []) := by
  rw [validateMessageContent]
  by_cases h0 : s = []
  · rw [if_pos h0]
    simp [h0, Except.isOk, Except.toBool]
  rw [if_neg h0]
  by_cases h1 : 4000 < s.length
  · rw [if_pos h1]
    simp only [Except.isOk, Except.toBool, iff_false, not_and, Bool.false_eq_true,
      false_iff, not_not]
    intro h2
    omega
  rw [if_neg h1]
  by_cases h2 : normalizeWs s = []
  · rw [if_pos h2]
    simp [Except.isOk, Except.toBool, h2]
  · rw [if_neg h2]
    simp only [Except.isOk, Except.toBool, true_iff]
    exact ⟨h0, by omega, h2⟩

theorem except_bind_ok {ε α β : Type} (a : α) (f : α → Except ε β) :
    (Except.ok a >>= f) = f a := rfl

theorem except_bind_err {ε α β : Type} (e : ε) (f : α → Except ε β) :
    ((Except.error e : Except ε α) >>= f) = .error e := rfl

theorem except_pure_eq_ok {ε α : Type} (a : α) : (pure a : Except ε α) = .ok a := rfl

theorem openConfig_eq (dataDir : List Char) (fs : FileSys)
    (filename key : List Char) (value : Json) (p : List Char)
    (hp : getSafeDataPath dataDir filename = .ok p) :
    openConfig dataDir fs filename key value
      = match fs p with
        | none =>
          .ok [.mkdirOp, .writeFile p (.json (createDefaultConfig key value))]
        | some .emptyFile => .error "Failed to update config: JSON parse error"
        | some .malformed => .error "Failed to update config: JSON parse error"
        | some (.json object) =>
          match updateConfigDoc object key value with
          | .error e => .error ("Failed to update config: " ++ e)
          | .ok newDoc =>
            .ok [.writeFile (p ++ tmpSuffix) (.json newDoc),
                 .renameFile (p ++ tmpSuffix) p] := by
  unfold openConfig
  rw [hp]
  rfl

theorem openConfig_eq_json (dataDir : List Char) (fs : FileSys)
    (filename key : List Char) (value : Json) (p : List Char) (object : Json)
    (hp : getSafeDataPath dataDir filename = .ok p)
    (hj : fs p = some (.json object)) :
    openConfig dataDir fs filename key value
      = match updateConfigDoc object key value with
        | .error e => .error ("Failed to update config: " ++ e)
        | .ok newDoc =>
          .ok [.writeFile (p ++ tmpSuffix) (.json newDoc),
               .renameFile (p ++ tmpSuffix) p] := by
  unfold openConfig
  rw [hp, except_bind_ok, hj]
  rfl

theorem stagedWrites_pair (p : List Char) (c : FileContent) :
    stagedWrites [.writeFile (p ++ tmpSuffix) c,
                  .renameFile (p ++ tmpSuffix) p] := by
  intro p' c' hmem
  simp only [List.mem_cons, List.not_mem_nil, or_false] at hmem
  rcases hmem with h | h
  · simp only [FsOp.writeFile.injEq] at h
    obtain ⟨h1, h2⟩ := h
    subst h1
    exact ⟨p, rfl, by simp⟩
  · exact absurd h (by simp)

theorem stagedWrites_mkdir_pair (p : List Char) (c : FileContent) :
    stagedWrites [.mkdirOp, .writeFile (p ++ tmpSuffix) c,
                  .renameFile (p ++ tmpSuffix) p] := by
  intro p' c' hmem
  simp only [List.mem_cons, List.not_mem_nil, or_false] at hmem
  rcases hmem with h | h | h
  · exact absurd h (by simp)
  · simp only [FsOp.writeFile.injEq] at h
    obtain ⟨h1, h2⟩ := h
    subst h1
    exact ⟨p, rfl, by simp⟩
  · exact absurd h (by simp)

/-- Claim C2 counterexample: creating a configuration document for a key that
has no file yet (the ENOENT branch of `openConfig`) writes the target file
directly — no temp file is written and nothing is renamed. -/
theorem staged_write_counterexample :
    openConfig dataDirC fsEmpty "user-config.json".toList "switch-model".toList
        (Json.str "llama3.2".toList)
      = .ok [FsOp.mkdirOp,
             FsOp.writeFile "/data/user-config.json".toList
               (.json (createDefaultConfig "switch-model".toList
                 (Json.str "llama3.2".toList)))]
    ∧ ¬ stagedWrites
        [FsOp.mkdirOp,
         FsOp.writeFile "/data/user-config.json".toList
           (.json (createDefaultConfig "switch-model".toList
             (Json.str "llama3.2".toList)))] := by
  constructor
  · rfl
  · intro h
    obtain ⟨dst, hdst, hmem⟩ := h "/data/user-config.json".toList
      (.json (createDefaultConfig "switch-model".toList (Json.str "llama3.2".toList)))
      (by simp)
    simp at hmem

/-- Claim C2 (amended): the update path of `openConfig` and every write of
`saveChannelContext` and `saveChannelInfo` stage through the sibling
`<target>.tmp` file and rename it over the target; the one exception forced by
the counterexample is `openConfig`'s create path (ENOENT), which writes the
default document to the target directly. -/
theorem staged_write_amended (dataDir : List Char) (fs : FileSys) :
    (∀ filename key value p content trace,
        getSafeDataPath dataDir filename = .ok p → fs p = some content →
        openConfig dataDir fs filename key value = .ok trace →
        stagedWrites trace)
    ∧ (∀ channelId channelName messages trace,
        saveChannelContext dataDir channelId channelName messages = .ok trace →
        stagedWrites trace)
    ∧ (∀ channelId channelName username messages trace,
        saveChannelInfo dataDir channelId channelName username messages = .ok trace →
        stagedWrites trace)
    ∧ (∀ filename key value p,
        getSafeDataPath dataDir filename = .ok p → fs p = none →
        openConfig dataDir fs filename key value
          = .ok [FsOp.mkdirOp,
                 FsOp.writeFile p (.json (createDefaultConfig key value))]) := by
  refine ⟨?_, ?_, ?_, ?_⟩
  · intro filename key value p content trace hp hc htrace
    cases content with
    | emptyFile =>
      rw [openConfig_eq dataDir fs filename key value p hp, hc] at htrace
      exact absurd htrace (by simp)
    | malformed =>
      rw [openConfig_eq dataDir fs filename key value p hp, hc] at htrace
      exact absurd htrace (by simp)
    | json object =>
      rw [openConfig_eq_json dataDir fs filename key value p object hp hc] at htrace
      cases hupd : updateConfigDoc object key value with
      | error e =>
        rw [hupd] at htrace
        exact absurd htrace (by simp)
      | ok newDoc =>
        rw [hupd] at htrace
        simp only [Except.ok.injEq] at htrace
        rw [← htrace]
        exact stagedWrites_pair p (.json newDoc)
  · intro channelId channelName messages trace htrace
    unfold saveChannelContext at htrace
    cases hcid : validateChannelId channelId with
    | error e =>
      rw [hcid, except_bind_err] at htrace
      exact absurd htrace (by simp)
    | ok cid =>
      rw [hcid, except_bind_ok] at htrace
      cases hpath : getSafeDataPath dataDir (cid ++ "-context.json".toList) with
      | error e =>
        rw [hpath, except_bind_err] at htrace
        exact absurd htrace (by simp)
      | ok full =>
        rw [hpath, except_bind_ok, except_pure_eq_ok] at htrace
        simp only [Except.ok.injEq] at htrace
        rw [← htrace]
        exact stagedWrites_mkdir_pair full _
  · intro channelId channelName username messages trace htrace
    unfold saveChannelInfo at htrace
    cases hcid : validateChannelId channelId with
    | error e =>
      rw [hcid, except_bind_err] at htrace
      exact absurd htrace (by simp)
    | ok cid =>
      rw [hcid, except_bind_ok] at htrace
      cases huser : validateUsername username with
      | error e =>
        rw [huser, except_bind_err] at htrace
        exact absurd htrace (by simp)
      | ok uname =>
        rw [huser, except_bind_ok] at htrace
        cases hpath : getSafeDataPath dataDir
            (cid ++ "-".toList ++ uname ++ ".json".toList) with
        | error e =>
          rw [hpath, except_bind_err] at htrace
          exact absurd htrace (by simp)
        | ok full =>
          rw [hpath, except_bind_ok, except_pure_eq_ok] at htrace
          simp only [Except.ok.injEq] at htrace
          rw [← htrace]
          exact stagedWrites_mkdir_pair full _
  · intro filename key value p hp hnone
    rw [openConfig_eq dataDir fs filename key value p hp, hnone]

/-- Witness for C2 (amended): a concrete `saveChannelContext` run stages its
write. -/
theorem staged_write_amended_witness :
    stagedWrites
      [FsOp.mkdirOp,
       FsOp.writeFile "/data/12345678901234567-context.json.tmp".toList
         (.json (channelDoc "12345678901234567".toList "general".toList
           "context".toList [])),
       FsOp.renameFile "/data/12345678901234567-context.json.tmp".toList
         "/data/12345678901234567-context.json".toList] :=
  (staged_write_amended dataDirC fsEmpty).2.1 "12345678901234567".toList
    "general".toList [] _ rfl

theorem except_throw_eq_error {ε α : Type} (e : ε) :
    (throw e : Except ε α) = .error e := rfl

/-- Claim C3: each read operation (`getChannelInfo`, `getUserConfig`,
`getServerConfig`) returns `null` exactly when the resolved file is missing
(ENOENT); a present file that is empty or fails the structural check — for a
conversation document, missing `id`/`name`/`messages`, e.g. the file `{}` —
makes the call throw rather than return `null` or an empty record. -/
theorem read_null_iff_missing (dataDir : List Char) (fs : FileSys)
    (filename : List Char) :
    ((getChannelInfo dataDir fs filename = .ok none)
      ↔ ∃ p, getSafeDataPath dataDir filename = .ok p ∧ fs p = none)
    ∧ ((getUserConfig dataDir fs filename = .ok none)
      ↔ ∃ p, getSafeDataPath dataDir filename = .ok p ∧ fs p = none)
    ∧ ((getServerConfig dataDir fs filename = .ok none)
      ↔ ∃ p, getSafeDataPath dataDir filename = .ok p ∧ fs p = none)
    ∧ (∀ p, getSafeDataPath dataDir filename = .ok p →
        (fs p = some .emptyFile
          ∨ ∃ v, fs p = some (.json v) ∧ channelStructValid v = false) →
        (getChannelInfo dataDir fs filename).isOk = false)
    ∧ (∀ p, getSafeDataPath dataDir filename = .ok p →
        (fs p = some .emptyFile
          ∨ ∃ v, fs p = some (.json v) ∧ configStructValid v = false) →
        (getUserConfig dataDir fs filename).isOk = false)
    ∧ (∀ p, getSafeDataPath dataDir filename = .ok p →
        (fs p = some .emptyFile
          ∨ ∃ v, fs p = some (.json v) ∧ configStructValid v = false) →
        (getServerConfig dataDir fs filename).isOk = false) := by
  refine ⟨?_, ?_, ?_, ?_, ?_, ?_⟩
  · constructor
    · intro h
      cases hpath : getSafeDataPath dataDir filename with
      | error e =>
        unfold getChannelInfo at h
        rw [hpath, except_bind_err] at h
        exact absurd h (by simp)
      | ok p0 =>
        unfold getChannelInfo at h
        rw [hpath, except_bind_ok] at h
        refine ⟨p0, rfl, ?_⟩
        cases hfs : fs p0 with
        | none => rfl
        | some content =>
          rw [hfs] at h
          cases content with
          | emptyFile => exact absurd h (by simp [except_throw_eq_error])
          | malformed => exact absurd h (by simp [except_throw_eq_error])
          | json v =>
            by_cases hv : channelStructValid v = true
            · simp only [hv, if_true] at h
              exact absurd h (by simp [except_pure_eq_ok])
            · simp only [hv, if_false] at h
              exact absurd h (by simp [except_throw_eq_error])
    · rintro ⟨p0, hp0, hfs⟩
      unfold getChannelInfo
      rw [hp0, except_bind_ok, hfs]
      rfl
  · constructor
    · intro h
      cases hpath : getSafeDataPath dataDir filename with
      | error e =>
        unfold getUserConfig at h
        rw [hpath, except_bind_err] at h
        exact absurd h (by simp)
      | ok p0 =>
        unfold getUserConfig at h
        rw [hpath, except_bind_ok] at h
        refine ⟨p0, rfl, ?_⟩
        cases hfs : fs p0 with
        | none => rfl
        | some content =>
          rw [hfs] at h
          cases content with
          | emptyFile => exact absurd h (by simp [except_throw_eq_error])
          | malformed => exact absurd h (by simp [except_throw_eq_error])
          | json v =>
            by_cases hv : configStructValid v = true
            · simp only [hv, if_true] at h
              exact absurd h (by simp [except_pure_eq_ok])
            · simp only [hv, if_false] at h
              exact absurd h (by simp [except_throw_eq_error])
    · rintro ⟨p0, hp0, hfs⟩
      unfold getUserConfig
      rw [hp0, except_bind_ok, hfs]
      rfl
  · constructor
    · intro h
      cases hpath : getSafeDataPath dataDir filename with
      | error e =>
        unfold getServerConfig at h
        rw [hpath, except_bind_err] at h
        exact absurd h (by simp)
      | ok p0 =>
        unfold getServerConfig at h
        rw [hpath, except_bind_ok] at h
        refine ⟨p0, rfl, ?_⟩
        cases hfs : fs p0 with
        | none => rfl
        | some content =>
          rw [hfs] at h
          cases content with
          | emptyFile => exact absurd h (by simp [except_throw_eq_error])
          | malformed => exact absurd h (by simp [except_throw_eq_error])
          | json v =>
            by_cases hv : configStructValid v = true
            · simp only [hv, if_true] at h
              exact absurd h (by simp [except_pure_eq_ok])
            · simp only [hv, if_false] at h
              exact absurd h (by simp [except_throw_eq_error])
    · rintro ⟨p0, hp0, hfs⟩
      unfold getServerConfig
      rw [hp0, except_bind_ok, hfs]
      rfl
  · intro p0 hp0 hcase
    unfold getChannelInfo
    rw [hp0, except_bind_ok]
    rcases hcase with hfs | ⟨v, hfs, hv⟩
    · rw [hfs]
      rfl
    · simp only [hfs]
      rw [if_neg (by simp [hv])]
      rfl
  · intro p0 hp0 hcase
    unfold getUserConfig
    rw [hp0, except_bind_ok]
    rcases hcase with hfs | ⟨v, hfs, hv⟩
    · rw [hfs]
      rfl
    · simp only [hfs]
      rw [if_neg (by simp [hv])]
      rfl
  · intro p0 hp0 hcase
    unfold getServerConfig
    rw [hp0, except_bind_ok]
    rcases hcase with hfs | ⟨v, hfs, hv⟩
    · rw [hfs]
      rfl
    · simp only [hfs]
      rw [if_neg (by simp [hv])]
      rfl

/-- Witness for C3: reading a conversation file containing `{}` throws. -/
theorem read_null_iff_missing_witness :
    (getChannelInfo dataDirC fsInvalidChannel "chan.json".toList).isOk = false :=
  (read_null_iff_missing dataDirC fsInvalidChannel "chan.json".toList).2.2.2.1
    "/data/chan.json".toList rfl (Or.inr ⟨Json.obj [], rfl, rfl⟩)

theorem getProp_setProp_self (l : List (List Char × Json)) (k : List Char)
    (v : Json) : getProp (setProp l k v) k = some v := by
  induction l with
  | nil => rw [setProp, getProp, if_pos rfl]
  | cons kv rest ih =>
    obtain ⟨k', v'⟩ := kv
    by_cases h : k' = k
    · rw [setProp, if_pos h, getProp, if_pos rfl]
    · rw [setProp, if_neg h, getProp, if_neg h]
      exact ih

theorem getProp_setProp_ne (l : List (List Char × Json)) (k k' : List Char)
    (v : Json) (h : ¬ k' = k) :
    getProp (setProp l k v) k' = getProp l k' := by
  induction l with
  | nil =>
    show getProp [(k, v)] k' = none
    rw [getProp, if_neg (fun hh => h hh.symm), getProp]
  | cons kv rest ih =>
    obtain ⟨k0, v0⟩ := kv
    by_cases h0 : k0 = k
    · rw [setProp, if_pos h0, getProp, if_neg (fun hh => h hh.symm), getProp,
        if_neg (fun hh => h (hh.symm.trans h0))]
    · rw [setProp, if_neg h0, getProp, getProp]
      by_cases h1 : k0 = k'
      · rw [if_pos h1, if_pos h1]
      · rw [if_neg h1, if_neg h1]
        exact ih

/-- Claim C7: updating one option key of an existing configuration document is
a sparse merge: the committed document carries the new value for that key,
every other option key keeps its previous value, and the top-level `name`
field is unchanged (no full replace). -/
theorem openConfig_sparse_merge (dataDir : List Char) (fs : FileSys)
    (filename key : List Char) (value : Json) (p : List Char)
    (fields opts : List (List Char × Json))
    (hp : getSafeDataPath dataDir filename = .ok p)
    (hf : fs p = some (.json (.obj fields)))
    (ho : getProp fields "options".toList = some (.obj opts)) :
    openConfig dataDir fs filename key value
      = .ok [FsOp.writeFile (p ++ tmpSuffix)
               (.json (.obj (setProp fields "options".toList
                 (.obj (setProp opts key value))))),
             FsOp.renameFile (p ++ tmpSuffix) p]
    ∧ getProp (setProp opts key value) key = some value
    ∧ (∀ k, ¬ k = key → getProp (setProp opts key value) k = getProp opts k)
    ∧ getProp (setProp fields "options".toList (.obj (setProp opts key value)))
        "name".toList = getProp fields "name".toList := by
  refine ⟨?_, getProp_setProp_self opts key value,
    fun k hk => getProp_setProp_ne opts key k value hk, ?_⟩
  · have hupd : updateConfigDoc (.obj fields) key value
        = .ok (.obj (setProp fields "options".toList
            (.obj (setProp opts key value)))) := by
      simp only [updateConfigDoc, ho]
    rw [openConfig_eq_json dataDir fs filename key value p (.obj fields) hp hf,
      hupd]
  · exact getProp_setProp_ne fields "options".toList "name".toList _ (by decide)

/-- Witness for C7: adding `modify-capacity` to a document whose options
already hold `switch-model: "a"` preserves the latter. -/
theorem openConfig_sparse_merge_witness :
    getProp (setProp [("switch-model".toList, Json.str "a".toList)]
        "modify-capacity".toList (Json.num 10)) "switch-model".toList
      = some (Json.str "a".toList) :=
  (openConfig_sparse_merge dataDirC fsCfg "user-config.json".toList
      "modify-capacity".toList (Json.num 10) "/data/user-config.json".toList
      [("name".toList, Json.str "User Configurations".toList),
       ("options".toList, Json.obj [("switch-model".toList, Json.str "a".toList)])]
      [("switch-model".toList, Json.str "a".toList)]
      rfl rfl rfl).2.2.1 "switch-model".toList (by decide)
